import Mathlib

/-!
Verification development for the outbound message queue of the
ocm-sharing-app repository (`message-queue` module, class
`MessageQueueManager`).

The queue state is a list of `QueuedMessage` records.  Every public
operation of the manager (`addMessage`, `removeMessage`, `retryMessage`,
`clearSentMessages`, `clearFailedMessages`), the dispatcher's selection
step (`processQueue`) and the per-message attempt (`processMessage`) are
embedded below as pure functions on that list.  Timestamps (`Date`
values) are embedded as `Int` milliseconds since the epoch; the
JavaScript `Date.toISOString` / `new Date(string)` pair used by the
persistence layer is a runtime builtin, not repository code, and is
modelled as an injective decimal rendering of the signed millisecond
value (`encodeTime` / `decodeTime`), which round-trips exactly as the
ISO-8601 rendering does at millisecond precision.
-/

namespace MQ

/-- The `type` field of a `QueuedMessage`: `'email' | 'sms' | 'mms'`. -/
inductive Channel where
  | email
  | sms
  | mms
deriving DecidableEq, Repr

/-- The `status` field: `'pending' | 'sending' | 'sent' | 'failed' | 'retrying'`. -/
inductive MsgStatus where
  | pending
  | sending
  | sent
  | failed
  | retrying
deriving DecidableEq, Repr

/-- The `priority` field: `'high' | 'medium' | 'low'`. -/
inductive MsgPriority where
  | high
  | medium
  | low
deriving DecidableEq, Repr

/-- One entry of the optional `surveyResponses` array of a payload. -/
structure SurveyResponse where
  questionId : String
  answer : String
deriving DecidableEq, Repr

/-- One entry of the optional `attachments` array of an email payload. -/
structure Attachment where
  filename : String
  content : String
  contentType : String
deriving DecidableEq, Repr

/-- `EmailMessageData` from the source (`recipients` models its `to` array). -/
structure EmailMessageData where
  recipients : List String
  subject : String
  text : String
  html : Option String
  attachments : Option (List Attachment)
  eventName : Option String
  disclaimerEnabled : Option Bool
  surveyResponses : Option (List SurveyResponse)
deriving DecidableEq, Repr

/-- `SmsMessageData` from the source (`recipients` models its `to` array). -/
structure SmsMessageData where
  recipients : List String
  message : String
  eventName : Option String
  disclaimerEnabled : Option Bool
  surveyResponses : Option (List SurveyResponse)
deriving DecidableEq, Repr

/-- `MmsMessageData` from the source (`recipients` models its `to` array). -/
structure MmsMessageData where
  recipients : List String
  message : String
  mediaUrls : List String
  eventName : Option String
  disclaimerEnabled : Option Bool
  surveyResponses : Option (List SurveyResponse)
deriving DecidableEq, Repr

/-- The `data` field of a `QueuedMessage`: the union
`EmailMessageData | SmsMessageData | MmsMessageData`, as a tagged sum. -/
inductive MessageData where
  | email (d : EmailMessageData)
  | sms (d : SmsMessageData)
  | mms (d : MmsMessageData)
deriving DecidableEq, Repr

/-- `QueuedMessage` from the source.  `Date` fields are epoch
milliseconds (`Int`); optional fields are `Option`. -/
structure QueuedMessage where
  id : String
  type : Channel
  status : MsgStatus
  priority : MsgPriority
  createdAt : Int
  lastAttempt : Option Int
  nextRetry : Option Int
  attempts : Nat
  maxAttempts : Nat
  data : MessageData
  error : Option String
deriving DecidableEq, Repr

/-- `RETRY_DELAYS = [1000, 5000, 30000, 60000, 300000]` (milliseconds). -/
def RETRY_DELAYS : List Nat := [1000, 5000, 30000, 60000, 300000]

/-- The backoff delay used after the `n`-th attempt has failed:
`RETRY_DELAYS[Math.min(attempts - 1, RETRY_DELAYS.length - 1)]`, where
`attempts` has already been incremented to `n`. -/
def retryDelay (n : Nat) : Nat :=
  RETRY_DELAYS.getD (min (n - 1) (RETRY_DELAYS.length - 1)) 0

/-- The numeric rank `{ high: 3, medium: 2, low: 1 }` used by both
`sortQueue` and the dispatcher's sort comparator. -/
def priorityOrder : MsgPriority → Nat
  | .high => 3
  | .medium => 2
  | .low => 1

/-- Boolean form of the sort comparator of `sortQueue` / `processQueue`:
`msgLE a b` holds when the comparator orders `a` at or before `b`
(priority descending, then `createdAt` ascending). -/
def msgLE (a b : QueuedMessage) : Bool :=
  if priorityOrder a.priority ≠ priorityOrder b.priority then
    decide (priorityOrder b.priority < priorityOrder a.priority)
  else
    decide (a.createdAt ≤ b.createdAt)

/-- The comparator as a decidable relation, for use with `List.insertionSort`. -/
def msgLEp (a b : QueuedMessage) : Prop := msgLE a b = true

instance : DecidableRel msgLEp := fun a b => by
  unfold msgLEp; infer_instance

/-- `sortQueue`: the in-place `Array.prototype.sort` with the
priority/createdAt comparator, modelled as a stable sort (the ECMAScript
sort is required to be stable). -/
def sortQueue (q : List QueuedMessage) : List QueuedMessage :=
  q.insertionSort msgLEp

/-- The fresh record built by `addMessage`: `status: 'pending'`,
`createdAt: new Date()`, `attempts: 0`, `maxAttempts: 5`. -/
def newMessage (id : String) (ch : Channel) (d : MessageData)
    (pr : MsgPriority) (now : Int) : QueuedMessage :=
  { id := id, type := ch, status := .pending, priority := pr,
    createdAt := now, lastAttempt := none, nextRetry := none,
    attempts := 0, maxAttempts := 5, data := d, error := none }

/-- `addMessage`: push the fresh record and re-sort the queue.  The
generated id (`type_Date.now()_random`) is passed in as a parameter. -/
def addMessage (q : List QueuedMessage) (id : String) (ch : Channel)
    (d : MessageData) (pr : MsgPriority) (now : Int) : List QueuedMessage :=
  sortQueue (q ++ [newMessage id ch d pr now])

/-- `removeMessage`: `findIndex` + `splice(index, 1)` — remove the first
message with the given id, report whether one existed. -/
def removeMessage (q : List QueuedMessage) (id : String) :
    List QueuedMessage × Bool :=
  if q.any (fun m => m.id == id) then
    (q.eraseP (fun m => m.id == id), true)
  else
    (q, false)

/-- Replace the first element satisfying `p` by its image under `f`,
leaving everything else untouched (JS object mutation of a `find` result). -/
def updateFirst {α : Type} (p : α → Bool) (f : α → α) : List α → List α
  | [] => []
  | a :: rest => if p a then f a :: rest else a :: updateFirst p f rest

/-- The field updates `retryMessage` applies to an eligible message:
`status = 'pending'; attempts = 0; error = undefined; nextRetry = undefined`. -/
def resetForRetry (m : QueuedMessage) : QueuedMessage :=
  { m with status := .pending, attempts := 0, error := none, nextRetry := none }

/-- `retryMessage`: find the message by id; if it exists and its status
is `failed` or `retrying`, reset it and return true; otherwise return
false with the queue unchanged. -/
def retryMessage (q : List QueuedMessage) (id : String) :
    List QueuedMessage × Bool :=
  match q.find? (fun m => m.id == id) with
  | some m =>
    if m.status = .failed ∨ m.status = .retrying then
      (updateFirst (fun x => x.id == id) resetForRetry q, true)
    else
      (q, false)
  | none => (q, false)

/-- `clearSentMessages`: drop every `sent` message, return the count dropped. -/
def clearSentMessages (q : List QueuedMessage) : List QueuedMessage × Nat :=
  (q.filter (fun m => decide (m.status ≠ .sent)),
   (q.filter (fun m => decide (m.status = .sent))).length)

/-- `clearFailedMessages`: drop every `failed` message, return the count dropped. -/
def clearFailedMessages (q : List QueuedMessage) : List QueuedMessage × Nat :=
  (q.filter (fun m => decide (m.status ≠ .failed)),
   (q.filter (fun m => decide (m.status = .failed))).length)

/-- The dispatcher's eligibility filter in `processQueue`:
`status === 'pending' || (status === 'retrying' && nextRetry && now >= nextRetry)`. -/
def eligibleB (now : Int) (m : QueuedMessage) : Bool :=
  decide (m.status = .pending) ||
  (decide (m.status = .retrying) &&
    (match m.nextRetry with
     | some t => decide (t ≤ now)
     | none => false))

/-- The `pendingMessages` list a processing pass computes and then walks
in order: filter the eligible messages, sort them with the
priority/createdAt comparator. -/
def pendingMessages (now : Int) (q : List QueuedMessage) : List QueuedMessage :=
  (q.filter (eligibleB now)).insertionSort msgLEp

/-- `processMessage` for one message, with the attempt's outcome
(`success`) and the failure description (`err`) supplied by the Channel
Sender: set `sending`, record `lastAttempt`, increment `attempts`; on
success set `sent` and clear `error`; on failure record `error` and
either fail permanently (`attempts >= maxAttempts`) or schedule a retry
with the backoff ladder. -/
def processMessage (now : Int) (success : Bool) (err : String)
    (m : QueuedMessage) : QueuedMessage :=
  let m1 : QueuedMessage :=
    { m with status := .sending, lastAttempt := some now,
             attempts := m.attempts + 1 }
  if success then
    { m1 with status := .sent, error := none }
  else if m1.maxAttempts ≤ m1.attempts then
    { m1 with status := .failed, error := some err }
  else
    { m1 with status := .retrying, error := some err,
              nextRetry := some (now + (retryDelay m1.attempts : Nat)) }

/-- The serialized form of a timestamp.  `saveQueue` writes
`Date.prototype.toISOString()` strings and `loadQueue` reconstructs the
`Date` with `new Date(string)`; that runtime pair is mutually inverse at
millisecond precision, and is modelled here as the sign plus the
little-endian decimal digit string of the absolute millisecond value. -/
structure IsoTimestamp where
  neg : Bool
  digitsLE : List Nat
deriving DecidableEq, Repr

/-- Model of `Date.prototype.toISOString()` on an epoch-millisecond value. -/
def encodeTime (t : Int) : IsoTimestamp :=
  ⟨decide (t < 0), Nat.digits 10 t.natAbs⟩

/-- Model of `new Date(isoString)` back to the epoch-millisecond value. -/
def decodeTime (s : IsoTimestamp) : Int :=
  if s.neg then -((Nat.ofDigits 10 s.digitsLE : Nat) : Int)
  else ((Nat.ofDigits 10 s.digitsLE : Nat) : Int)

/-- One element of the JSON array stored under the `message_queue` key:
a `QueuedMessage` with its three `Date` fields rendered as ISO strings
(`{ ...msg, createdAt: iso, lastAttempt: iso?, nextRetry: iso? }`). -/
structure PersistedMessage where
  id : String
  type : Channel
  status : MsgStatus
  priority : MsgPriority
  createdAt : IsoTimestamp
  lastAttempt : Option IsoTimestamp
  nextRetry : Option IsoTimestamp
  attempts : Nat
  maxAttempts : Nat
  data : MessageData
  error : Option String
deriving DecidableEq, Repr

/-- The per-message mapping inside `saveQueue`. -/
def serializeMessage (m : QueuedMessage) : PersistedMessage :=
  { id := m.id, type := m.type, status := m.status, priority := m.priority,
    createdAt := encodeTime m.createdAt,
    lastAttempt := m.lastAttempt.map encodeTime,
    nextRetry := m.nextRetry.map encodeTime,
    attempts := m.attempts, maxAttempts := m.maxAttempts,
    data := m.data, error := m.error }

/-- The per-message mapping inside `loadQueue`
(`createdAt: new Date(msg.createdAt)`, optional fields guarded). -/
def deserializeMessage (p : PersistedMessage) : QueuedMessage :=
  { id := p.id, type := p.type, status := p.status, priority := p.priority,
    createdAt := decodeTime p.createdAt,
    lastAttempt := p.lastAttempt.map decodeTime,
    nextRetry := p.nextRetry.map decodeTime,
    attempts := p.attempts, maxAttempts := p.maxAttempts,
    data := p.data, error := p.error }

/-- The blob `saveQueue` writes under the `message_queue` key. -/
def saveQueue (q : List QueuedMessage) : List PersistedMessage :=
  q.map serializeMessage

/-- The content of the `message_queue` storage slot, as `loadQueue` sees
it: `none` when `localStorage.getItem` returns null, `some none` when a
blob is present but `JSON.parse`/the array mapping throws, and
`some (some data)` for a present well-formed blob. -/
abbrev StoredBlob : Type := Option (Option (List PersistedMessage))

/-- `loadQueue`: absent blob leaves the initial empty queue; a parse
failure is caught and yields the empty queue; a well-formed blob is
mapped back to `QueuedMessage` records.  Total: no error escapes. -/
def loadQueue (stored : StoredBlob) : List QueuedMessage :=
  match stored with
  | none => []
  | some none => []
  | some (some ps) => ps.map deserializeMessage

/-- In-memory queue plus the persisted `message_queue` slot. -/
structure ManagerState where
  queue : List QueuedMessage
  stored : StoredBlob

/-- The constructor of `MessageQueueManager`: `loadQueue()` from the
stored blob, then the `createEffect(() => this.saveQueue())` auto-save
effect runs exactly once.  During that run `saveQueue` reads only the
plain field `this.queue` (never the `queueSignal` accessor), so the
effect registers no reactive dependency. -/
def initManager (stored0 : StoredBlob) : ManagerState :=
  let q := loadQueue stored0
  { queue := q, stored := some (some (saveQueue q)) }

/-- `addMessage` on the manager: the in-memory queue is mutated and
`setQueueSignal` is called, but the auto-save effect — having tracked no
signal on its only run — does not re-run, so the stored blob is
unchanged.  No other code path invokes `saveQueue`. -/
def addMessageM (s : ManagerState) (id : String) (ch : Channel)
    (d : MessageData) (pr : MsgPriority) (now : Int) : ManagerState :=
  { queue := addMessage s.queue id ch d pr now, stored := s.stored }

/-- The queue operations, as labels for the step relation: the public
API calls plus one dispatcher attempt (`processMessage`) on the message
with the given id, with the Channel Sender outcome supplied. -/
inductive Op where
  | add (id : String) (ch : Channel) (d : MessageData) (pr : MsgPriority) (now : Int)
  | remove (id : String)
  | retry (id : String)
  | clearSent
  | clearFailed
  | process (id : String) (now : Int) (success : Bool) (err : String)
deriving DecidableEq, Repr

/-- Queue state together with ghost history: `outcome id` records
whether the most recent send attempt of the message with that id
succeeded (`none` before any attempt).  The ghost field appears nowhere
in the source; it only lets the spec's "most recent attempt" be stated. -/
structure GState where
  msgs : List QueuedMessage
  outcome : String → Option Bool

/-- Effect of one operation.  A `process` step fires only when the
target message is currently eligible — the dispatcher reaches
`processMessage` only through the eligibility filter of `processQueue`,
and a message selected at pass start is still eligible when its turn
comes (eligibility is monotone in `now` and no other message's attempt
touches it). -/
def applyOp : Op → GState → GState
  | .add id ch d pr now, s => ⟨addMessage s.msgs id ch d pr now, s.outcome⟩
  | .remove id, s => ⟨(removeMessage s.msgs id).1, s.outcome⟩
  | .retry id, s => ⟨(retryMessage s.msgs id).1, s.outcome⟩
  | .clearSent, s => ⟨(clearSentMessages s.msgs).1, s.outcome⟩
  | .clearFailed, s => ⟨(clearFailedMessages s.msgs).1, s.outcome⟩
  | .process id now success err, s =>
    if s.msgs.any (fun m => m.id == id && eligibleB now m) then
      ⟨updateFirst (fun m => m.id == id && eligibleB now m)
         (processMessage now success err) s.msgs,
       fun i => if i == id then some success else s.outcome i⟩
    else s

/-- Side condition of a step: a fresh `add` id never collides with a
live one (the generated ids are collision-resistant by construction). -/
def opOK : Op → GState → Bool
  | .add id _ _ _ _, s => s.msgs.all (fun m => m.id != id)
  | _, _ => true

/-- A whole operation sequence applied in order. -/
def applyOps (ops : List Op) (s : GState) : GState :=
  ops.foldl (fun t op => applyOp op t) s

/-- Every step of the sequence satisfies its side condition. -/
def opsOK : List Op → GState → Bool
  | [], _ => true
  | op :: rest, s => opOK op s && opsOK rest (applyOp op s)

/-- The manager's initial in-memory state: empty queue, no attempt history. -/
def initState : GState := ⟨[], fun _ => none⟩

/-- Reachability of a queue state by a sequence of queue operations from
the empty queue. -/
inductive Reach : GState → Prop
  | init : Reach initState
  | step {s : GState} (op : Op) : Reach s → opOK op s = true → Reach (applyOp op s)

/-- A concrete SMS payload used for witnesses and scenarios. -/
def demoSms : MessageData := .sms
  { recipients := ["+15550100"],
    message := "hi",
    eventName := none,
    disclaimerEnabled := none,
    surveyResponses := none }

/-- The ids of the queued messages, in queue order. -/
def idsOf (q : List QueuedMessage) : List String := q.map (fun m => m.id)

/-- Per-message invariant, relative to the ghost attempt history `oc`:
the spec's data-model invariants for one `QueuedMessage`. -/
structure MsgInv (oc : String → Option Bool) (m : QueuedMessage) : Prop where
  maxa : m.maxAttempts = 5
  att_le : m.attempts ≤ m.maxAttempts
  pend0 : m.status = .pending → m.attempts = 0
  retr_lt : m.status = .retrying → m.attempts < m.maxAttempts
  sent_err : m.status = .sent → m.error = none
  failed_iff : m.status = .failed ↔
    (m.attempts = m.maxAttempts ∧ oc m.id = some false)

/-- Whole-state invariant: distinct ids, and every message satisfies
`MsgInv` with respect to the state's attempt history. -/
def QInv (s : GState) : Prop :=
  (idsOf s.msgs).Nodup ∧ ∀ m ∈ s.msgs, MsgInv s.outcome m

/-- Totality of the sort comparator. -/
instance : IsTotal QueuedMessage msgLEp where
  total := by
    intro a b
    unfold msgLEp msgLE
    by_cases h : priorityOrder a.priority = priorityOrder b.priority
    · rw [if_neg (by omega), if_neg (by omega)]
      simp only [decide_eq_true_eq]
      omega
    · rw [if_pos (by omega), if_pos (by omega)]
      simp only [decide_eq_true_eq]
      omega

/-- Transitivity of the sort comparator. -/
instance : IsTrans QueuedMessage msgLEp where
  trans := by
    intro a b c hab hbc
    unfold msgLEp msgLE at hab hbc ⊢
    split at hab <;> split at hbc <;> split <;>
      simp only [decide_eq_true_eq, ne_eq] at * <;> omega

/-- Message A of the spec's ordering example: high priority, created at t = 0. -/
def msgA : QueuedMessage := newMessage "A" .sms demoSms .high 0

/-- Message B of the spec's ordering example: low priority, created at t = -10s. -/
def msgB : QueuedMessage := newMessage "B" .sms demoSms .low (-10000)

/-- Message C of the spec's ordering example: high priority, created at t = -5s. -/
def msgC : QueuedMessage := newMessage "C" .sms demoSms .high (-5000)

/-- Scenario 3 of the spec: one message enqueued, the Channel Sender
fails on all five attempts; the attempt times respect each scheduled
backoff (`1s`, `5s`, `30s`, `60s` after the first four failures). -/
def scenarioOps : List Op :=
  [Op.add "m1" .sms demoSms .medium 0,
   Op.process "m1" 0 false "boom",
   Op.process "m1" 2000 false "boom",
   Op.process "m1" 10000 false "boom",
   Op.process "m1" 50000 false "boom",
   Op.process "m1" 400000 false "boom"]

/-- The state reached by Scenario 3. -/
def failedRun : GState := applyOps scenarioOps initState

/-- The single message of `failedRun`, written out. -/
def scenarioMsg : QueuedMessage :=
  { id := "m1", type := .sms, status := .failed, priority := .medium,
    createdAt := 0, lastAttempt := some 400000, nextRetry := some 110000,
    attempts := 5, maxAttempts := 5, data := demoSms, error := some "boom" }

/-- Scenario 2 of the spec: one message enqueued, the Channel Sender
succeeds on the first attempt. -/
def sentRun : GState :=
  applyOps [Op.add "s1" .sms demoSms .medium 0,
            Op.process "s1" 0 true "unused"] initState

/-- The single message of `sentRun`, written out. -/
def sentMsg : QueuedMessage :=
  { id := "s1", type := .sms, status := .sent, priority := .medium,
    createdAt := 0, lastAttempt := some 0, nextRetry := none,
    attempts := 1, maxAttempts := 5, data := demoSms, error := none }

/-- A permanently failed message, used as a concrete retry target. -/
def failedMsg : QueuedMessage :=
  { id := "f1", type := .sms, status := .failed, priority := .medium,
    createdAt := 0, lastAttempt := some 9, nextRetry := some 8,
    attempts := 5, maxAttempts := 5, data := demoSms, error := some "boom" }

/-- A message stuck in `sending` status (as restored by `loadQueue`
after a crash mid-send). -/
def stuckMsg : QueuedMessage :=
  { id := "k1", type := .sms, status := .sending, priority := .medium,
    createdAt := 0, lastAttempt := some 0, nextRetry := none,
    attempts := 1, maxAttempts := 5, data := demoSms, error := none }

theorem decodeTime_encodeTime (t : Int) : decodeTime (encodeTime t) = t := by
  have h10 : Nat.ofDigits 10 (Nat.digits 10 t.natAbs) = t.natAbs :=
    Nat.ofDigits_digits 10 t.natAbs
  unfold decodeTime encodeTime
  by_cases h : t < 0
  · simp [h, h10, abs_of_neg h]
  · simp [h, h10]
    omega

theorem mem_updateFirst {α : Type} {p : α → Bool} {f : α → α} :
    ∀ {l : List α} {b : α}, b ∈ updateFirst p f l →
      b ∈ l ∨ ∃ a, a ∈ l ∧ p a = true ∧ b = f a := by
  intro l
  induction l with
  | nil => intro b hb; simp [updateFirst] at hb
  | cons a rest ih =>
    intro b hb
    by_cases hpa : p a = true
    · simp [updateFirst, hpa] at hb
      rcases hb with hb | hb
      · exact Or.inr ⟨a, List.mem_cons_self a rest, hpa, hb⟩
      · exact Or.inl (List.mem_cons_of_mem a hb)
    · simp only [updateFirst, Bool.not_eq_true] at hpa
      simp [updateFirst, hpa] at hb
      rcases hb with hb | hb
      · exact Or.inl (by simp [hb])
      · rcases ih hb with h | ⟨c, hc, hpc, hbc⟩
        · exact Or.inl (List.mem_cons_of_mem a h)
        · exact Or.inr ⟨c, List.mem_cons_of_mem a hc, hpc, hbc⟩

theorem updateFirst_eq_map {α : Type} {p : α → Bool} {f : α → α} :
    ∀ {l : List α}, l.Pairwise (fun a b => ¬(p a = true ∧ p b = true)) →
      updateFirst p f l = l.map (fun a => if p a then f a else a) := by
  intro l
  induction l with
  | nil => intro _; rfl
  | cons a rest ih =>
    intro h
    rcases List.pairwise_cons.mp h with ⟨hrel, hrest⟩
    by_cases hpa : p a = true
    · have hmap : rest.map (fun x => if p x then f x else x) = rest := by
        have : ∀ x ∈ rest, (fun x => if p x then f x else x) x = id x := by
          intro x hx
          have : ¬(p a = true ∧ p x = true) := hrel x hx
          have hpx : ¬ p x = true := fun hc => this ⟨hpa, hc⟩
          simp [hpx]
        rw [List.map_congr_left this, List.map_id]
      simp [updateFirst, hpa, hmap]
    · simp only [Bool.not_eq_true] at hpa
      simp [updateFirst, hpa, ih hrest]

theorem idsOf_pairwise_ne {q : List QueuedMessage} (hnd : (idsOf q).Nodup) :
    q.Pairwise (fun a b => a.id ≠ b.id) := by
  unfold idsOf at hnd
  exact List.pairwise_map.mp hnd

theorem eq_of_id_eq {q : List QueuedMessage} (hnd : (idsOf q).Nodup)
    {a b : QueuedMessage} (ha : a ∈ q) (hb : b ∈ q) (hid : a.id = b.id) :
    a = b := by
  by_contra hne
  exact (List.Pairwise.forall (fun x y h => h.symm) (idsOf_pairwise_ne hnd))
    ha hb hne hid

theorem pairwise_not_both {q : List QueuedMessage} (hnd : (idsOf q).Nodup)
    {p : QueuedMessage → Bool} {k : String} (hp : ∀ m, p m = true → m.id = k) :
    q.Pairwise (fun a b => ¬(p a = true ∧ p b = true)) := by
  refine (idsOf_pairwise_ne hnd).imp ?_
  intro a b hne ⟨hpa, hpb⟩
  exact hne ((hp a hpa).trans (hp b hpb).symm)

theorem processMessage_id (now : Int) (succ : Bool) (err : String)
    (m : QueuedMessage) : (processMessage now succ err m).id = m.id := by
  unfold processMessage
  by_cases h : succ = true <;> simp [h] <;> split <;> rfl

theorem processMessage_attempts (now : Int) (succ : Bool) (err : String)
    (m : QueuedMessage) :
    (processMessage now succ err m).attempts = m.attempts + 1 := by
  unfold processMessage
  by_cases h : succ = true <;> simp [h] <;> split <;> rfl

theorem processMessage_maxAttempts (now : Int) (succ : Bool) (err : String)
    (m : QueuedMessage) :
    (processMessage now succ err m).maxAttempts = m.maxAttempts := by
  unfold processMessage
  by_cases h : succ = true <;> simp [h] <;> split <;> rfl

theorem MsgInv.congr {oc oc' : String → Option Bool} {m : QueuedMessage}
    (h : MsgInv oc m) (hoc : oc' m.id = oc m.id) : MsgInv oc' m :=
  ⟨h.maxa, h.att_le, h.pend0, h.retr_lt, h.sent_err, by
    rw [hoc]; exact h.failed_iff⟩

theorem eligibleB_iff {now : Int} {m : QueuedMessage} :
    eligibleB now m = true ↔
      (m.status = .pending ∨
       (m.status = .retrying ∧ ∃ t, m.nextRetry = some t ∧ t ≤ now)) := by
  unfold eligibleB
  cases hnr : m.nextRetry with
  | none => cases hs : m.status <;> simp [hnr, hs]
  | some t => cases hs : m.status <;> simp [hnr, hs]

theorem attempts_lt_of_eligible {oc : String → Option Bool} {now : Int}
    {m : QueuedMessage} (hi : MsgInv oc m) (he : eligibleB now m = true) :
    m.attempts < m.maxAttempts := by
  rcases eligibleB_iff.mp he with hp | ⟨hr, _⟩
  · rw [hi.pend0 hp, hi.maxa]; omega
  · exact hi.retr_lt hr

theorem msgInv_newMessage {oc : String → Option Bool} (id : String)
    (ch : Channel) (d : MessageData) (pr : MsgPriority) (now : Int) :
    MsgInv oc (newMessage id ch d pr now) := by
  constructor <;> simp [newMessage]

theorem msgInv_resetForRetry {oc : String → Option Bool} {a : QueuedMessage}
    (hi : MsgInv oc a) : MsgInv oc (resetForRetry a) := by
  have hmax := hi.maxa
  constructor <;> simp [resetForRetry, hmax]

theorem msgInv_processMessage {oc' : String → Option Bool} {m : QueuedMessage}
    (hmax : m.maxAttempts = 5) (hlt : m.attempts < m.maxAttempts)
    (now : Int) (succ : Bool) (err : String)
    (hoc : oc' m.id = some succ) :
    MsgInv oc' (processMessage now succ err m) := by
  unfold processMessage
  cases succ with
  | true => constructor <;> simp [hmax, hoc] <;> omega
  | false =>
    simp only [Bool.false_eq_true, if_false]
    split
    · constructor <;> simp [hmax, hoc] <;> omega
    · constructor <;> simp [hmax, hoc] <;> omega

theorem qInv_add {s : GState} (h : QInv s) {id : String} {ch : Channel}
    {d : MessageData} {pr : MsgPriority} {now : Int}
    (hok : opOK (.add id ch d pr now) s = true) :
    QInv (applyOp (.add id ch d pr now) s) := by
  obtain ⟨hnd, hmem⟩ := h
  have hfresh : ∀ m ∈ s.msgs, m.id ≠ id := by
    intro m hm
    have := List.all_eq_true.mp hok m hm
    simpa using this
  have hperm :=
    List.perm_insertionSort msgLEp (s.msgs ++ [newMessage id ch d pr now])
  constructor
  · show (idsOf (addMessage s.msgs id ch d pr now)).Nodup
    unfold addMessage sortQueue idsOf
    rw [List.Perm.nodup_iff (hperm.map (fun m => m.id))]
    rw [List.map_append, List.nodup_append]
    refine ⟨hnd, List.nodup_singleton _, ?_⟩
    intro x hx
    rcases List.mem_map.mp hx with ⟨a, ha, hax⟩
    simp [newMessage, ← hax]
    exact fun hc => hfresh a ha hc
  · intro m hm
    replace hm : m ∈ s.msgs ++ [newMessage id ch d pr now] := hperm.mem_iff.mp hm
    rcases List.mem_append.mp hm with hold | hnew
    · exact hmem m hold
    · have : m = newMessage id ch d pr now := by simpa using hnew
      subst this
      exact msgInv_newMessage id ch d pr now

theorem updateFirst_mem_image {α : Type} {p : α → Bool} {f : α → α} :
    ∀ {l : List α}, (∃ a ∈ l, p a = true) →
      ∃ a ∈ l, p a = true ∧ f a ∈ updateFirst p f l := by
  intro l
  induction l with
  | nil => intro h; simp at h
  | cons a rest ih =>
    intro h
    by_cases hpa : p a = true
    · exact ⟨a, List.mem_cons_self a rest, hpa, by simp [updateFirst, hpa]⟩
    · simp only [Bool.not_eq_true] at hpa
      have hrest : ∃ x ∈ rest, p x = true := by
        rcases h with ⟨x, hx, hpx⟩
        rcases List.mem_cons.mp hx with hxa | hxr
        · rw [hxa] at hpx; rw [hpa] at hpx; exact absurd hpx (by simp)
        · exact ⟨x, hxr, hpx⟩
      rcases ih hrest with ⟨x, hx, hpx, hfx⟩
      exact ⟨x, List.mem_cons_of_mem a hx, hpx,
        by simp [updateFirst, hpa]; exact Or.inr hfx⟩

theorem idsOf_updateFirst {p : QueuedMessage → Bool}
    {f : QueuedMessage → QueuedMessage} (hf : ∀ a, (f a).id = a.id) :
    ∀ l : List QueuedMessage, idsOf (updateFirst p f l) = idsOf l := by
  intro l
  induction l with
  | nil => rfl
  | cons a rest ih =>
    by_cases hpa : p a = true
    · simp [updateFirst, idsOf, hpa, hf a]
    · simp only [Bool.not_eq_true] at hpa
      simp only [updateFirst, hpa, Bool.false_eq_true, if_false]
      simp only [idsOf, List.map_cons] at ih ⊢
      rw [ih]

theorem qInv_remove {s : GState} (h : QInv s) (id : String) :
    QInv (applyOp (.remove id) s) := by
  obtain ⟨hnd, hmem⟩ := h
  show QInv ⟨(removeMessage s.msgs id).1, s.outcome⟩
  unfold removeMessage
  by_cases hc : s.msgs.any (fun m => m.id == id) = true
  · rw [if_pos hc]
    constructor
    · have hnd2 : (s.msgs.map (fun m => m.id)).Nodup := hnd
      exact ((List.eraseP_sublist s.msgs).map (fun m => m.id)).nodup hnd2
    · intro m hm
      exact hmem m (List.mem_of_mem_eraseP hm)
  · rw [if_neg hc]
    exact ⟨hnd, hmem⟩

theorem qInv_clearSent {s : GState} (h : QInv s) :
    QInv (applyOp .clearSent s) := by
  obtain ⟨hnd, hmem⟩ := h
  show QInv ⟨(clearSentMessages s.msgs).1, s.outcome⟩
  constructor
  · have hnd2 : (s.msgs.map (fun m => m.id)).Nodup := hnd
    exact ((List.filter_sublist s.msgs).map (fun m => m.id)).nodup hnd2
  · intro m hm
    exact hmem m (List.mem_of_mem_filter hm)

theorem qInv_clearFailed {s : GState} (h : QInv s) :
    QInv (applyOp .clearFailed s) := by
  obtain ⟨hnd, hmem⟩ := h
  show QInv ⟨(clearFailedMessages s.msgs).1, s.outcome⟩
  constructor
  · have hnd2 : (s.msgs.map (fun m => m.id)).Nodup := hnd
    exact ((List.filter_sublist s.msgs).map (fun m => m.id)).nodup hnd2
  · intro m hm
    exact hmem m (List.mem_of_mem_filter hm)

theorem qInv_retry {s : GState} (h : QInv s) (id : String) :
    QInv (applyOp (.retry id) s) := by
  obtain ⟨hnd, hmem⟩ := h
  have hresult :
      (retryMessage s.msgs id).1 = s.msgs ∨
      (retryMessage s.msgs id).1 =
        updateFirst (fun x => x.id == id) resetForRetry s.msgs := by
    unfold retryMessage
    cases hf : s.msgs.find? (fun m => m.id == id) with
    | none => exact Or.inl rfl
    | some m =>
      by_cases hst : m.status = .failed ∨ m.status = .retrying
      · simp [hst]
      · simp [hst]
  show QInv ⟨(retryMessage s.msgs id).1, s.outcome⟩
  rcases hresult with hres | hres
  · rw [hres]; exact ⟨hnd, hmem⟩
  · rw [hres]
    have hp : ∀ m : QueuedMessage, (fun x => x.id == id) m = true → m.id = id := by
      intro m hm
      simpa using hm
    have hfid : ∀ a : QueuedMessage, (resetForRetry a).id = a.id := by
      intro a; rfl
    constructor
    · show (idsOf (updateFirst (fun x => x.id == id) resetForRetry s.msgs)).Nodup
      rw [idsOf_updateFirst hfid]
      exact hnd
    · intro m hm
      rcases mem_updateFirst hm with hold | ⟨a, ha, hpa, hma⟩
      · exact hmem m hold
      · rw [hma]
        exact msgInv_resetForRetry (hmem a ha)

theorem qInv_process {s : GState} (h : QInv s) (id : String) (now : Int)
    (succ : Bool) (err : String) :
    QInv (applyOp (.process id now succ err) s) := by
  obtain ⟨hnd, hmem⟩ := h
  unfold applyOp
  by_cases hg : s.msgs.any (fun m => m.id == id && eligibleB now m) = true
  · simp only [hg, if_pos]
    have hp : ∀ m : QueuedMessage,
        (fun m => m.id == id && eligibleB now m) m = true → m.id = id := by
      intro m hm
      simp only [Bool.and_eq_true] at hm
      simpa using hm.1
    rcases List.any_eq_true.mp hg with ⟨b, hb, hpb⟩
    constructor
    · show (idsOf (updateFirst (fun m => m.id == id && eligibleB now m)
        (processMessage now succ err) s.msgs)).Nodup
      rw [idsOf_updateFirst (processMessage_id now succ err)]
      exact hnd
    · intro m hm
      rcases mem_updateFirst hm with hold | ⟨a, ha, hpa, hma⟩
      · have hnd2 : (idsOf (updateFirst (fun m => m.id == id && eligibleB now m)
            (processMessage now succ err) s.msgs)).Nodup := by
          rw [idsOf_updateFirst (processMessage_id now succ err)]
          exact hnd
        have haid : m.id ≠ id := by
          intro hc
          have hab : m = b := eq_of_id_eq hnd hold hb (hc.trans (hp b hpb).symm)
          rcases updateFirst_mem_image (p := fun m => m.id == id && eligibleB now m)
            (f := processMessage now succ err) ⟨b, hb, hpb⟩ with ⟨x, hx, hpx, hfx⟩
          have hxb : x = b := eq_of_id_eq hnd hx hb ((hp x hpx).trans (hp b hpb).symm)
          rw [hxb] at hfx
          have hmb : m = processMessage now succ err b := by
            refine eq_of_id_eq hnd2 hm hfx ?_
            rw [processMessage_id, hab]
          have := congrArg QueuedMessage.attempts hmb
          rw [processMessage_attempts, hab] at this
          omega
        refine (hmem m hold).congr ?_
        simp [haid]
      · rw [hma]
        simp only [Bool.and_eq_true] at hpa
        obtain ⟨haid, helig⟩ := hpa
        have haid' : a.id = id := by simpa using haid
        refine msgInv_processMessage (hmem a ha).maxa
          (attempts_lt_of_eligible (hmem a ha) helig) now succ err ?_
        show (if (a.id == id) = true then some succ else s.outcome a.id) = some succ
        rw [if_pos haid]
  · simp only [Bool.not_eq_true] at hg
    simp only [hg, Bool.false_eq_true, if_false]
    exact ⟨hnd, hmem⟩

theorem qInv_applyOp {s : GState} {op : Op} (h : QInv s)
    (hok : opOK op s = true) : QInv (applyOp op s) := by
  cases op with
  | add id ch d pr now => exact qInv_add h hok
  | remove id => exact qInv_remove h id
  | retry id => exact qInv_retry h id
  | clearSent => exact qInv_clearSent h
  | clearFailed => exact qInv_clearFailed h
  | process id now succ err => exact qInv_process h id now succ err

theorem reach_qInv {s : GState} (h : Reach s) : QInv s := by
  induction h with
  | init => exact ⟨List.nodup_nil, by intro m hm; simp [initState] at hm⟩
  | step op _ hok ih => exact qInv_applyOp ih hok

theorem retryMessage_fst_cases (q : List QueuedMessage) (id : String) :
    (retryMessage q id).1 = q ∨
    ((retryMessage q id).1 = updateFirst (fun x => x.id == id) resetForRetry q ∧
     ∃ m, q.find? (fun x => x.id == id) = some m ∧
       (m.status = MsgStatus.failed ∨ m.status = MsgStatus.retrying)) := by
  unfold retryMessage
  cases hf : q.find? (fun m => m.id == id) with
  | none => exact Or.inl rfl
  | some m =>
    by_cases hst : m.status = MsgStatus.failed ∨ m.status = MsgStatus.retrying
    · exact Or.inr ⟨by simp [hst], m, rfl, hst⟩
    · simp [hst]

theorem updateFirst_of_neg {α : Type} {p : α → Bool} {f : α → α} :
    ∀ {l : List α} {a : α}, a ∈ l → p a = false → a ∈ updateFirst p f l := by
  intro l
  induction l with
  | nil => intro a ha _; simp at ha
  | cons b rest ih =>
    intro a ha hpa
    rcases List.mem_cons.mp ha with hab | har
    · subst hab
      simp [updateFirst, hpa]
    · by_cases hpb : p b = true
      · simp only [updateFirst, hpb, if_pos]
        exact List.mem_cons_of_mem _ har
      · simp only [Bool.not_eq_true] at hpb
        simp only [updateFirst, hpb, Bool.false_eq_true, if_false]
        exact List.mem_cons_of_mem _ (ih har hpa)

theorem mem_updateFirst_of_find {α : Type} {p : α → Bool} {f : α → α} :
    ∀ {l : List α} {m0 m : α}, l.find? p = some m0 → m ∈ l → m ≠ m0 →
      m ∈ updateFirst p f l := by
  intro l
  induction l with
  | nil => intro m0 m hf; simp at hf
  | cons a rest ih =>
    intro m0 m hf hm hne
    by_cases hpa : p a = true
    · rw [List.find?_cons_of_pos rest hpa] at hf
      injection hf with hf
      subst hf
      rcases List.mem_cons.mp hm with hma | hmr
      · exact absurd hma hne
      · simp only [updateFirst, hpa, if_pos]
        exact List.mem_cons_of_mem _ hmr
    · rw [List.find?_cons_of_neg rest hpa] at hf
      simp only [Bool.not_eq_true] at hpa
      rcases List.mem_cons.mp hm with hma | hmr
      · subst hma
        simp [updateFirst, hpa]
      · simp only [updateFirst, hpa, Bool.false_eq_true, if_false]
        exact List.mem_cons_of_mem _ (ih hf hmr hne)

theorem attempts_step {s : GState} {op : Op} (hInv : QInv s)
    (hok : opOK op s = true) {m m' : QueuedMessage}
    (hm : m ∈ s.msgs) (hm' : m' ∈ (applyOp op s).msgs) (hid : m'.id = m.id) :
    m.attempts ≤ m'.attempts ∨ (op = Op.retry m.id ∧ m'.attempts = 0) := by
  obtain ⟨hnd, _⟩ := hInv
  cases op with
  | add id ch d pr now =>
    have hfresh : m.id ≠ id := by
      have := List.all_eq_true.mp hok m hm
      simpa using this
    replace hm' : m' ∈ s.msgs ++ [newMessage id ch d pr now] := by
      have := hm'
      unfold applyOp addMessage sortQueue at this
      rwa [List.mem_insertionSort] at this
    rcases List.mem_append.mp hm' with hold | hnew
    · rw [eq_of_id_eq hnd hold hm hid]
      exact Or.inl le_rfl
    · exfalso
      have : m' = newMessage id ch d pr now := by simpa using hnew
      rw [this] at hid
      exact hfresh hid.symm
  | remove id =>
    replace hm' : m' ∈ (removeMessage s.msgs id).1 := hm'
    have hold : m' ∈ s.msgs := by
      unfold removeMessage at hm'
      by_cases hc : s.msgs.any (fun x => x.id == id) = true
      · rw [if_pos hc] at hm'
        exact List.mem_of_mem_eraseP hm'
      · rwa [if_neg hc] at hm'
    rw [eq_of_id_eq hnd hold hm hid]
    exact Or.inl le_rfl
  | retry id =>
    replace hm' : m' ∈ (retryMessage s.msgs id).1 := hm'
    rcases retryMessage_fst_cases s.msgs id with h | ⟨h, m0, hf, hst0⟩
    · rw [h] at hm'
      rw [eq_of_id_eq hnd hm' hm hid]
      exact Or.inl le_rfl
    · rw [h] at hm'
      rcases mem_updateFirst hm' with hold | ⟨a, ha, hpa, hma⟩
      · rw [eq_of_id_eq hnd hold hm hid]
        exact Or.inl le_rfl
      · have haid : a.id = id := by simpa using hpa
        have haid2 : a.id = m.id := by
          rw [hma] at hid
          exact hid
        have ham : a = m := eq_of_id_eq hnd ha hm haid2
        right
        constructor
        · rw [← haid2.trans rfl, haid]
        · rw [hma]
          rfl
  | clearSent =>
    replace hm' : m' ∈ (clearSentMessages s.msgs).1 := hm'
    have hold : m' ∈ s.msgs := List.mem_of_mem_filter hm'
    rw [eq_of_id_eq hnd hold hm hid]
    exact Or.inl le_rfl
  | clearFailed =>
    replace hm' : m' ∈ (clearFailedMessages s.msgs).1 := hm'
    have hold : m' ∈ s.msgs := List.mem_of_mem_filter hm'
    rw [eq_of_id_eq hnd hold hm hid]
    exact Or.inl le_rfl
  | process id now succ err =>
    replace hm' : m' ∈ (applyOp (Op.process id now succ err) s).msgs := hm'
    simp only [applyOp] at hm'
    by_cases hg : s.msgs.any (fun x => x.id == id && eligibleB now x) = true
    · rw [if_pos hg] at hm'
      rcases mem_updateFirst hm' with hold | ⟨a, ha, hpa, hma⟩
      · rw [eq_of_id_eq hnd hold hm hid]
        exact Or.inl le_rfl
      · have haid2 : a.id = m.id := by
          rw [hma, processMessage_id] at hid
          exact hid
        have ham : a = m := eq_of_id_eq hnd ha hm haid2
        rw [hma, processMessage_attempts, ham]
        exact Or.inl (Nat.le_succ _)
    · rw [if_neg hg] at hm'
      rw [eq_of_id_eq hnd hm' hm hid]
      exact Or.inl le_rfl

theorem sending_preserved_step {s : GState} {m : QueuedMessage} {op : Op}
    (hm : m ∈ s.msgs) (hst : m.status = MsgStatus.sending)
    (hrem : ∀ i, op = Op.remove i → i ≠ m.id) :
    m ∈ (applyOp op s).msgs := by
  cases op with
  | add id ch d pr now =>
    show m ∈ addMessage s.msgs id ch d pr now
    unfold addMessage sortQueue
    rw [List.mem_insertionSort]
    exact List.mem_append.mpr (Or.inl hm)
  | remove id =>
    show m ∈ (removeMessage s.msgs id).1
    have hne : id ≠ m.id := hrem id rfl
    unfold removeMessage
    by_cases hc : s.msgs.any (fun x => x.id == id) = true
    · rw [if_pos hc]
      show m ∈ s.msgs.eraseP (fun x => x.id == id)
      rw [List.mem_eraseP_of_neg]
      · exact hm
      · simp only [beq_iff_eq]
        exact fun hc2 => hne hc2.symm
    · rw [if_neg hc]
      exact hm
  | retry id =>
    show m ∈ (retryMessage s.msgs id).1
    rcases retryMessage_fst_cases s.msgs id with h | ⟨h, m0, hf, hst0⟩
    · rw [h]; exact hm
    · rw [h]
      have hne : m ≠ m0 := by
        intro hc
        rw [← hc, hst] at hst0
        rcases hst0 with h1 | h1 <;> simp at h1
      exact mem_updateFirst_of_find hf hm hne
  | clearSent =>
    show m ∈ (clearSentMessages s.msgs).1
    apply List.mem_filter.mpr
    exact ⟨hm, by simp [hst]⟩
  | clearFailed =>
    show m ∈ (clearFailedMessages s.msgs).1
    apply List.mem_filter.mpr
    exact ⟨hm, by simp [hst]⟩
  | process id now succ err =>
    show m ∈ (applyOp (Op.process id now succ err) s).msgs
    simp only [applyOp]
    by_cases hg : s.msgs.any (fun x => x.id == id && eligibleB now x) = true
    · rw [if_pos hg]
      apply updateFirst_of_neg hm
      simp [eligibleB, hst]
    · rw [if_neg hg]
      exact hm

theorem sending_preserved_ops {m : QueuedMessage}
    (hst : m.status = MsgStatus.sending) :
    ∀ (ops : List Op) (s : GState), m ∈ s.msgs →
      (∀ i, Op.remove i ∈ ops → i ≠ m.id) → m ∈ (applyOps ops s).msgs := by
  intro ops
  induction ops with
  | nil => intro s hm _; exact hm
  | cons op rest ih =>
    intro s hm hrem
    show m ∈ (applyOps rest (applyOp op s)).msgs
    apply ih
    · refine sending_preserved_step hm hst ?_
      intro i hop
      exact hrem i (by rw [hop]; exact List.mem_cons_self _ _)
    · intro i hi
      exact hrem i (List.mem_cons_of_mem op hi)

theorem reach_failedRun : Reach failedRun := by
  have h0 : Reach initState := Reach.init
  have h1 := Reach.step (Op.add "m1" .sms demoSms .medium 0) h0 (by decide)
  have h2 := Reach.step (Op.process "m1" 0 false "boom") h1 (by decide)
  have h3 := Reach.step (Op.process "m1" 2000 false "boom") h2 (by decide)
  have h4 := Reach.step (Op.process "m1" 10000 false "boom") h3 (by decide)
  have h5 := Reach.step (Op.process "m1" 50000 false "boom") h4 (by decide)
  have h6 := Reach.step (Op.process "m1" 400000 false "boom") h5 (by decide)
  exact h6

theorem reach_sentRun : Reach sentRun := by
  have h0 : Reach initState := Reach.init
  have h1 := Reach.step (Op.add "s1" .sms demoSms .medium 0) h0 (by decide)
  have h2 := Reach.step (Op.process "s1" 0 true "unused") h1 (by decide)
  exact h2

theorem processMessage_fail_lt {m : QueuedMessage} (now : Int) (err : String)
    (hlt : m.attempts + 1 < m.maxAttempts) :
    processMessage now false err m =
      { m with status := .retrying, lastAttempt := some now,
               attempts := m.attempts + 1, error := some err,
               nextRetry := some (now + (retryDelay (m.attempts + 1) : Nat)) } := by
  unfold processMessage
  simp only [Bool.false_eq_true, if_false]
  split
  · next hcond =>
    exact absurd (show m.maxAttempts ≤ m.attempts + 1 from hcond) (by omega)
  · rfl

/-- C1: the spec requires the persisted `message_queue` blob to be
rewritten after every queue mutation.  In the code the only `saveQueue`
call site is the constructor's `createEffect(() => this.saveQueue())`;
`saveQueue` reads only the plain field `this.queue`, never the
`queueSignal` accessor, so the effect tracks no reactive dependency and
never re-runs.  Enqueueing on a fresh manager therefore leaves the
stored blob equal to the serialized empty queue, different from the
serialization of the current in-memory queue. -/
theorem C1_autosave_never_rewrites :
    (addMessageM (initManager none) "email_1_a" Channel.email demoSms
        MsgPriority.medium 0).stored ≠
      some (some (saveQueue (addMessageM (initManager none) "email_1_a"
        Channel.email demoSms MsgPriority.medium 0).queue)) := by
  decide

/-- C2: when a send attempt fails and the incremented attempt count is
still below `maxAttempts`, the message becomes `retrying` with
`lastAttempt = now` and `nextRetry = now + retryDelay(attempts)` from
the ladder `RETRY_DELAYS = [1s, 5s, 30s, 60s, 300s]` (clamped), so the
scheduled delay `nextRetry - lastAttempt` equals the ladder entry of the
attempt number; the ladder delay is non-decreasing over attempts 1
through 5. -/
theorem C2_backoff_schedule :
    (∀ (m : QueuedMessage) (now : Int) (err : String),
      m.attempts + 1 < m.maxAttempts →
        ((processMessage now false err m).status = MsgStatus.retrying ∧
         (processMessage now false err m).lastAttempt = some now ∧
         (processMessage now false err m).nextRetry =
           some (now + (retryDelay (m.attempts + 1) : Nat)) ∧
         ∀ t r : Int, (processMessage now false err m).lastAttempt = some t →
           (processMessage now false err m).nextRetry = some r →
           r - t = (retryDelay (m.attempts + 1) : Nat))) ∧
    (∀ i j : Nat, 1 ≤ i → i ≤ j → j ≤ 5 → retryDelay i ≤ retryDelay j) ∧
    RETRY_DELAYS = [1000, 5000, 30000, 60000, 300000] := by
  refine ⟨?_, ?_, rfl⟩
  · intro m now err hlt
    rw [processMessage_fail_lt now err hlt]
    refine ⟨rfl, rfl, rfl, ?_⟩
    intro t r ht hr
    have ht2 : some now = some t := ht
    have hr2 : some (now + (retryDelay (m.attempts + 1) : Nat)) = some r := hr
    injection ht2 with ht3
    injection hr2 with hr3
    omega
  · intro i j h1 h2 h3
    have h4 : i ≤ 5 := le_trans h2 h3
    interval_cases i <;> interval_cases j <;> decide

theorem C2_backoff_schedule_witness :
    (processMessage 0 false "boom"
        (newMessage "w" Channel.sms demoSms MsgPriority.medium 0)).status =
      MsgStatus.retrying ∧
    retryDelay 1 ≤ retryDelay 5 :=
  ⟨(C2_backoff_schedule.1 (newMessage "w" Channel.sms demoSms MsgPriority.medium 0)
      0 "boom" (by decide)).1,
   C2_backoff_schedule.2.1 1 5 (by decide) (by decide) (by decide)⟩

/-- C3: a processing pass selects exactly the eligible messages
(`pending`, or `retrying` with `nextRetry` elapsed), walks them sorted
by the priority-descending / createdAt-ascending comparator, and on the
spec's example A(high, t=0), B(low, t=-10s), C(high, t=-5s) the attempt
order is C, A, B. -/
theorem C3_selection_and_order :
    (∀ (now : Int) (q : List QueuedMessage) (m : QueuedMessage),
      m ∈ pendingMessages now q ↔ (m ∈ q ∧ eligibleB now m = true)) ∧
    (∀ (now : Int) (q : List QueuedMessage),
      List.Pairwise msgLEp (pendingMessages now q)) ∧
    (pendingMessages 0 [msgA, msgB, msgC]).map (fun m => m.id) =
      ["C", "A", "B"] := by
  refine ⟨?_, ?_, by decide⟩
  · intro now q m
    unfold pendingMessages
    rw [List.mem_insertionSort, List.mem_filter]
  · intro now q
    exact List.sorted_insertionSort msgLEp _

/-- C4: `retryMessage` succeeds exactly when the message found by id is
in `failed` or `retrying` status, in which case it resets `attempts` to
0, clears `error` and `nextRetry` and sets status `pending`; in every
other case it returns false with the queue unchanged.  The embedding is
a total function: no exception escapes. -/
theorem C4_retryMessage_gated :
    (∀ (q : List QueuedMessage) (id : String),
      ((retryMessage q id).2 = true ↔
        ∃ m, q.find? (fun x => x.id == id) = some m ∧
          (m.status = MsgStatus.failed ∨ m.status = MsgStatus.retrying))) ∧
    (∀ (q : List QueuedMessage) (id : String),
      (retryMessage q id).2 = false → retryMessage q id = (q, false)) ∧
    (∀ (q : List QueuedMessage) (id : String) (m : QueuedMessage),
      q.find? (fun x => x.id == id) = some m →
      (m.status = MsgStatus.failed ∨ m.status = MsgStatus.retrying) →
      retryMessage q id =
        (updateFirst (fun x => x.id == id) resetForRetry q, true) ∧
      resetForRetry m = { m with status := MsgStatus.pending,
                                 attempts := 0,
                                 error := none,
                                 nextRetry := none }) := by
  refine ⟨?_, ?_, ?_⟩
  · intro q id
    unfold retryMessage
    cases hf : q.find? (fun m => m.id == id) with
    | none => simp
    | some m =>
      by_cases hst : m.status = MsgStatus.failed ∨ m.status = MsgStatus.retrying
      · simp [hst]
      · simp [hst]
  · intro q id
    unfold retryMessage
    cases hf : q.find? (fun m => m.id == id) with
    | none => intro _; rfl
    | some m =>
      by_cases hst : m.status = MsgStatus.failed ∨ m.status = MsgStatus.retrying
      · simp [hst]
      · intro _
        simp [hst]
  · intro q id m hf hst
    constructor
    · simp only [retryMessage, hf, if_pos hst]
    · rfl

theorem C4_retryMessage_gated_witness :
    retryMessage [failedMsg] "f1" =
      (updateFirst (fun x => x.id == "f1") resetForRetry [failedMsg], true) ∧
    (retryMessage [sentMsg] "s1").2 = false ∧
    retryMessage [sentMsg] "s1" = ([sentMsg], false) := by
  refine ⟨?_, by decide, ?_⟩
  · exact (C4_retryMessage_gated.2.2 [failedMsg] "f1" failedMsg (by decide)
      (Or.inl (by decide))).1
  · exact C4_retryMessage_gated.2.1 [sentMsg] "s1" (by decide)

/-- C5: in every reachable state a message is `failed` exactly when its
attempt count has reached `maxAttempts` and its most recent attempt did
not succeed; a message whose sender fails on all attempts ends `failed`
with `attempts = 5`. -/
theorem C5_failed_iff_exhausted :
    (∀ s : GState, Reach s → ∀ m ∈ s.msgs,
      (m.status = MsgStatus.failed ↔
        (m.attempts = m.maxAttempts ∧ s.outcome m.id = some false))) ∧
    failedRun.msgs = [scenarioMsg] ∧
    scenarioMsg.status = MsgStatus.failed ∧ scenarioMsg.attempts = 5 := by
  refine ⟨?_, by decide, by decide, by decide⟩
  intro s hs m hm
  exact ((reach_qInv hs).2 m hm).failed_iff

theorem C5_failed_iff_exhausted_witness :
    scenarioMsg.attempts = scenarioMsg.maxAttempts ∧
    failedRun.outcome scenarioMsg.id = some false :=
  (C5_failed_iff_exhausted.1 failedRun reach_failedRun scenarioMsg
    (by decide)).mp (by decide)

/-- C6: in every reachable state `attempts` never exceeds
`maxAttempts = 5`, and over every single operation `attempts` does not
decrease except when that operation is a successful `retryMessage` on
the message, which resets it to 0. -/
theorem C6_attempts_bounded_monotone :
    (∀ s : GState, Reach s → ∀ m ∈ s.msgs,
      m.attempts ≤ m.maxAttempts ∧ m.maxAttempts = 5) ∧
    (∀ (s : GState) (op : Op), Reach s → opOK op s = true →
      ∀ m ∈ s.msgs, ∀ m' ∈ (applyOp op s).msgs, m'.id = m.id →
        m.attempts ≤ m'.attempts ∨
          (op = Op.retry m.id ∧ m'.attempts = 0)) := by
  constructor
  · intro s hs m hm
    have hi := (reach_qInv hs).2 m hm
    exact ⟨hi.att_le, hi.maxa⟩
  · intro s op hs hok m hm m' hm' hid
    exact attempts_step (reach_qInv hs) hok hm hm' hid

theorem C6_attempts_bounded_monotone_witness :
    (scenarioMsg.attempts ≤ scenarioMsg.maxAttempts ∧
      scenarioMsg.maxAttempts = 5) ∧
    (scenarioMsg.attempts ≤ (resetForRetry scenarioMsg).attempts ∨
      (Op.retry "m1" = Op.retry scenarioMsg.id ∧
        (resetForRetry scenarioMsg).attempts = 0)) := by
  constructor
  · exact C6_attempts_bounded_monotone.1 failedRun reach_failedRun
      scenarioMsg (by decide)
  · exact C6_attempts_bounded_monotone.2 failedRun (Op.retry "m1")
      reach_failedRun (by decide) scenarioMsg (by decide)
      (resetForRetry scenarioMsg) (by decide) (by decide)

/-- C7: no reachable message is `sent` with a recorded error; a
successful attempt sets `sent` and clears the error, and a failed
attempt records the error only while moving to `retrying` or `failed`. -/
theorem C7_sent_never_with_error :
    (∀ s : GState, Reach s → ∀ m ∈ s.msgs,
      m.status = MsgStatus.sent → m.error = none) ∧
    (∀ (now : Int) (err : String) (m : QueuedMessage),
      (processMessage now true err m).status = MsgStatus.sent ∧
      (processMessage now true err m).error = none) ∧
    (∀ (now : Int) (err : String) (m : QueuedMessage),
      (processMessage now false err m).error = some err ∧
      ((processMessage now false err m).status = MsgStatus.retrying ∨
       (processMessage now false err m).status = MsgStatus.failed)) := by
  refine ⟨?_, ?_, ?_⟩
  · intro s hs m hm hsent
    exact ((reach_qInv hs).2 m hm).sent_err hsent
  · intro now err m
    exact ⟨rfl, rfl⟩
  · intro now err m
    unfold processMessage
    simp only [Bool.false_eq_true, if_false]
    split
    · exact ⟨rfl, Or.inr rfl⟩
    · exact ⟨rfl, Or.inl rfl⟩

theorem C7_sent_never_with_error_witness :
    sentMsg ∈ sentRun.msgs ∧ sentMsg.error = none :=
  ⟨by decide, C7_sent_never_with_error.1 sentRun reach_sentRun
    sentMsg (by decide) (by decide)⟩

/-- C8: `loadQueue` is total; an absent blob or a parse failure yields
the empty queue, and a non-empty loaded queue can only come from a
present, well-formed, non-empty blob. -/
theorem C8_loadQueue_resilient :
    (loadQueue none = [] ∧ loadQueue (some none) = []) ∧
    (∀ stored : StoredBlob, loadQueue stored ≠ [] →
      ∃ ps : List PersistedMessage, stored = some (some ps) ∧ ps ≠ [] ∧
        loadQueue stored = ps.map deserializeMessage) := by
  refine ⟨⟨rfl, rfl⟩, ?_⟩
  intro stored hne
  match stored with
  | none => exact absurd rfl hne
  | some none => exact absurd rfl hne
  | some (some ps) =>
    refine ⟨ps, rfl, ?_, rfl⟩
    intro hps
    rw [hps] at hne
    exact hne rfl

theorem C8_loadQueue_resilient_witness :
    ∃ ps : List PersistedMessage,
      (some (some [serializeMessage msgA]) : StoredBlob) = some (some ps) ∧
      ps ≠ [] ∧
      loadQueue (some (some [serializeMessage msgA])) =
        ps.map deserializeMessage :=
  C8_loadQueue_resilient.2 (some (some [serializeMessage msgA])) (by decide)

/-- C9: serialization with `saveQueue` followed by `loadQueue`
reconstructs every message field-for-field, timestamps included, with
absent timestamps staying absent. -/
theorem C9_persistence_roundTrip :
    (∀ m : QueuedMessage, deserializeMessage (serializeMessage m) = m) ∧
    (∀ q : List QueuedMessage, loadQueue (some (some (saveQueue q))) = q) := by
  have h1 : ∀ m : QueuedMessage, deserializeMessage (serializeMessage m) = m := by
    intro m
    have hco : decodeTime ∘ encodeTime = id := funext decodeTime_encodeTime
    simp [serializeMessage, deserializeMessage, decodeTime_encodeTime,
      Option.map_map, hco]
  refine ⟨h1, ?_⟩
  intro q
  show (saveQueue q).map deserializeMessage = q
  unfold saveQueue
  rw [List.map_map]
  have h2 : deserializeMessage ∘ serializeMessage = id := funext h1
  rw [h2, List.map_id]

/-- C10: a message whose status is `sending` is never selected by a
processing pass, and survives unchanged every queue operation other than
a `removeMessage` aimed at its id — it stays in `sending` indefinitely. -/
theorem C10_sending_stuck :
    (∀ (now : Int) (q : List QueuedMessage) (m : QueuedMessage),
      m.status = MsgStatus.sending → m ∉ pendingMessages now q) ∧
    (∀ (s : GState) (m : QueuedMessage), m ∈ s.msgs →
      m.status = MsgStatus.sending →
      ∀ ops : List Op, (∀ i, Op.remove i ∈ ops → i ≠ m.id) →
        m ∈ (applyOps ops s).msgs) := by
  constructor
  · intro now q m hst hmem
    unfold pendingMessages at hmem
    rw [List.mem_insertionSort, List.mem_filter] at hmem
    have h2 := hmem.2
    simp [eligibleB, hst] at h2
  · intro s m hm hst ops hrem
    exact sending_preserved_ops hst ops s hm hrem

theorem C10_sending_stuck_witness :
    stuckMsg ∉ pendingMessages 0 [stuckMsg] ∧
    stuckMsg ∈ (applyOps [Op.retry "k1", Op.clearSent, Op.clearFailed,
      Op.process "k1" 99 true "e", Op.add "n1" Channel.sms demoSms MsgPriority.high 7,
      Op.remove "other"] ⟨[stuckMsg], fun _ => none⟩).msgs := by
  constructor
  · exact C10_sending_stuck.1 0 [stuckMsg] stuckMsg (by decide)
  · refine C10_sending_stuck.2 ⟨[stuckMsg], fun _ => none⟩ stuckMsg
      (by decide) (by decide)
      [Op.retry "k1", Op.clearSent, Op.clearFailed, Op.process "k1" 99 true "e",
       Op.add "n1" Channel.sms demoSms MsgPriority.high 7, Op.remove "other"] ?_
    intro i hi
    simp at hi
    subst hi
    decide

end MQ
